import Mathlib

/-!
Shallow embedding of the survivability export pipeline of
`src/metazebrobot/utils/export_module.py` (class `SurvivabilityExporter`),
together with proofs about it.

Python integers are modelled as `Int`, Python floats produced by the two
division sites as `ℚ` (both divisions are exact formula translations),
Python dicts as association lists in insertion order, and Python's stable
`list.sort` as `List.insertionSort` (any two stable sorts by the same key
agree).
-/

/-- ASCII decimal digit value of a character, `none` for non-digits. -/
def digitVal (c : Char) : Option Nat :=
  if c.isDigit then some (c.toNat - 48) else none

/-- Gregorian leap-year test, as used by Python's `datetime`. -/
def isLeap (y : Nat) : Bool :=
  (y % 4 == 0 && y % 100 != 0) || y % 400 == 0

/-- Number of days in month `m` of year `y`. -/
def daysInMonth (y m : Nat) : Nat :=
  if m = 2 then (if isLeap y then 29 else 28)
  else if m = 4 ∨ m = 6 ∨ m = 9 ∨ m = 11 then 30 else 31

/-- Model of `datetime.strptime(s, "%Y%m%d")` on 8-character date strings:
exactly four year digits, two month digits and two day digits, with the
month/day ranges validated (including leap years).  Any other string fails
to parse, matching the `ValueError` branch of the source. -/
def parseYYYYMMDD (s : String) : Option (Nat × Nat × Nat) :=
  match s.toList.map digitVal with
  | [some a, some b, some c, some d, some e, some f, some g, some h] =>
    let y := 1000 * a + 100 * b + 10 * c + d
    let m := 10 * e + f
    let day := 10 * g + h
    if 1 ≤ m ∧ m ≤ 12 ∧ 1 ≤ day ∧ day ≤ daysInMonth y m then some (y, m, day)
    else none
  | _ => none

/-- Proleptic-Gregorian day number (era shifted by 400 years so all
arithmetic stays in `Nat`); differences of this count are the `.days`
of a Python `timedelta` between the two dates. -/
def toRataDie (y m d : Nat) : Nat :=
  let yAdj := if m ≤ 2 then y + 399 else y + 400
  let era := yAdj / 400
  let yoe := yAdj % 400
  let mp := (m + 9) % 12
  let doy := (153 * mp + 2) / 5 + d - 1
  let doe := yoe * 365 + yoe / 4 - yoe / 100 + doy
  era * 146097 + doe

/-- Embedding of `SurvivabilityExporter._calculate_days_between`:
`(strptime(date2) - strptime(date1)).days`, or `0` when either date
fails to parse. -/
def calculate_days_between (date1 date2 : String) : Int :=
  match parseYYYYMMDD date1, parseYYYYMMDD date2 with
  | some (y1, m1, d1), some (y2, m2, d2) =>
      (toRataDie y2 m2 d2 : Int) - (toRataDie y1 m1 d1 : Int)
  | _, _ => 0

/-- Python's `<` on strings: lexicographic comparison of code points
(the order of `List Char`, which is also how Lean's runtime orders
strings). -/
def strLT (a b : String) : Prop := List.lt a.data b.data

instance : DecidableRel strLT := fun a b => List.hasDecidableLt a.data b.data

/-- Python's `<=` on strings. -/
def strLE (a b : String) : Prop := ¬ strLT b a

instance : DecidableRel strLE := fun _ _ => inferInstanceAs (Decidable (Not _))

lemma strLT_trans {a b c : String} (h1 : strLT a b) (h2 : strLT b c) :
    strLT a c :=
  String.lt_trans h1 h2

lemma strLT_antisymm {a b : String} (h1 : ¬ strLT a b) (h2 : ¬ strLT b a) :
    a = b :=
  String.lt_antisymm h1 h2

lemma strLT_irrefl (a : String) : ¬ strLT a a :=
  String.lt_irrefl a

lemma strLE_total (a b : String) : strLE a b ∨ strLE b a := by
  by_cases h : strLT b a
  · exact Or.inr fun h2 => strLT_irrefl b (strLT_trans h h2)
  · exact Or.inl h

lemma strLE_trans {a b c : String} (h1 : strLE a b) (h2 : strLE b c) :
    strLE a c := by
  intro hca
  by_cases hbc : strLT b c
  · exact h1 (strLT_trans hbc hca)
  · have hbceq : b = c := strLT_antisymm hbc h2
    exact h1 (by rw [hbceq]; exact hca)

/-- The Python values that the detailed report stores in its `room` cell:
either a plain string, or a 1-tuple containing a string (the value built
by a trailing comma, as on line 152 of the source). -/
inductive PyVal where
  | str (s : String)
  | tup1 (s : String)
deriving DecidableEq

/-- One value of the `quality_checks` mapping: a legacy free-text string,
a structured check object (only the fields the exporter reads are kept;
absent fields are `none`), or a value of any other JSON type. -/
inductive CheckEntry where
  | str (s : String)
  | obj (num_dead : Option Int) (water_changed : Option Bool)
        (vol_water_changed : Option Int)
  | other
deriving DecidableEq

/-- The nested `enclosure` object of a dish record; every field may be
absent. -/
structure Enclosure where
  in_beaker : Option Bool := none
  room : Option String := none
  vol_water_total : Option Int := none
deriving DecidableEq

/-- A dish record as the exporter reads it: each top-level key may be
absent (`none`), and `quality_checks` is an association list in the
insertion order of the underlying Python dict. -/
structure Dish where
  dish_id : Option String := none
  cross_id : Option String := none
  date_created : Option String := none
  dof : Option String := none
  genotype : Option String := none
  fish_count : Option Int := none
  status : Option String := none
  termination_date : Option String := none
  termination_reason : Option String := none
  responsible : Option String := none
  enclosure : Option Enclosure := none
  quality_checks : List (String × CheckEntry) := []
deriving DecidableEq

/-- `dish.get('dish_id', 'unknown')`. -/
def Dish.dishIdStr (d : Dish) : String := d.dish_id.getD "unknown"

/-- `dish.get('cross_id', 'unknown')`. -/
def Dish.crossIdStr (d : Dish) : String := d.cross_id.getD "unknown"

/-- `dish.get('date_created', 'unknown')`. -/
def Dish.dateCreatedStr (d : Dish) : String := d.date_created.getD "unknown"

/-- `dish.get('dof', 'unknown')`. -/
def Dish.dofStr (d : Dish) : String := d.dof.getD "unknown"

/-- `dish.get('genotype', 'unknown')`. -/
def Dish.genotypeStr (d : Dish) : String := d.genotype.getD "unknown"

/-- `dish.get('fish_count', 0)`. -/
def Dish.fishCount (d : Dish) : Int := d.fish_count.getD 0

/-- `dish.get('status', 'unknown')`. -/
def Dish.statusStr (d : Dish) : String := d.status.getD "unknown"

/-- `dish.get('responsible', 'unknown')`. -/
def Dish.responsibleStr (d : Dish) : String := d.responsible.getD "unknown"

/-- `dish.get('enclosure', {})`. -/
def Dish.enclosureD (d : Dish) : Enclosure := d.enclosure.getD {}

/-- `enclosure.get('in_beaker', False)`. -/
def Dish.inBeaker (d : Dish) : Bool := d.enclosureD.in_beaker.getD false

/-- `enclosure.get('room', 'unknown')`. -/
def Dish.roomStr (d : Dish) : String := d.enclosureD.room.getD "unknown"

/-- `enclosure.get('vol_water_total', 0)`. -/
def Dish.volWaterTotal (d : Dish) : Int := d.enclosureD.vol_water_total.getD 0

/-- One entry of the intermediate `check_data` list built at lines
162-201 of the source. -/
structure CheckData where
  date : String
  num_dead : Int
  water_changed : Bool
  vol_water_changed : Int
deriving DecidableEq

/-- Canonical date of a check-time key: its first 8 characters when the
key contains a colon, otherwise the key verbatim (lines 174-184). -/
def canonicalDate (check_time : String) : String :=
  if check_time.data.contains ':' then check_time.take 8 else check_time

/-- Normalization of one `(check_time, check)` pair (lines 163-201):
structured objects keep `num_dead` (default 0) and the water-change
fields (volume forced to 0 unless `water_changed`); legacy strings get
`num_dead = 0` and the raw key as date; any other value is skipped. -/
def normalizeCheck : String × CheckEntry → Option CheckData
  | (check_time, CheckEntry.obj nd wc vwc) =>
      let water_changed := wc.getD false
      some { date := canonicalDate check_time
           , num_dead := nd.getD 0
           , water_changed := water_changed
           , vol_water_changed := if water_changed then vwc.getD 0 else 0 }
  | (check_time, CheckEntry.str _) =>
      some { date := check_time, num_dead := 0
           , water_changed := false, vol_water_changed := 0 }
  | (_, CheckEntry.other) => none

/-- One row of the detailed survivability report (lines 213-235);
`room` is a `PyVal` because the source stores a 1-tuple there. -/
structure Row where
  dish_id : String
  cross_id : String
  genotype : String
  date_fertilized : String
  date_created : String
  initial_count : Int
  check_date : String
  fish_deaths : Int
  cumulative_deaths : Int
  remaining : Int
  survival_rate : ℚ
  days_since_fertilization : Int
  status : String
  termination_date : String
  termination_reason : String
  responsible : String
  in_beaker : String
  vol_water_total : Int
  room : PyVal
  water_changed : String
  vol_water_changed : Int
deriving DecidableEq

/-- The row emitted for one check once `remaining` has been updated
(lines 213-235); `remaining` is the value after subtracting this check's
deaths. -/
def mkRow (dish : Dish) (check : CheckData) (remaining : Int) : Row :=
  { dish_id := dish.dishIdStr
  , cross_id := dish.crossIdStr
  , genotype := dish.genotypeStr
  , date_fertilized := dish.dofStr
  , date_created := dish.dateCreatedStr
  , initial_count := dish.fishCount
  , check_date := check.date
  , fish_deaths := check.num_dead
  , cumulative_deaths := dish.fishCount - remaining
  , remaining := remaining
  , survival_rate :=
      if 0 < dish.fishCount then (remaining : ℚ) / (dish.fishCount : ℚ) * 100
      else 0
  , days_since_fertilization := calculate_days_between dish.dofStr check.date
  , status := dish.statusStr
  , termination_date := dish.termination_date.getD ""
  , termination_reason := dish.termination_reason.getD ""
  , responsible := dish.responsibleStr
  , in_beaker := if dish.inBeaker then "Yes" else "No"
  , vol_water_total := dish.volWaterTotal
  , room := PyVal.tup1 dish.roomStr
  , water_changed := if check.water_changed then "Yes" else "No"
  , vol_water_changed := check.vol_water_changed }

/-- The accumulation loop of lines 206-236: walk the ordered checks,
subtracting each `num_dead` from `remaining` (no clamping) and emitting
a row per check. -/
def buildRowsAux (dish : Dish) (remaining : Int) : List CheckData → List Row
  | [] => []
  | check :: rest =>
      let r := remaining - check.num_dead
      mkRow dish check r :: buildRowsAux dish r rest

/-- The key order used by `check_data.sort(key=lambda x: x['date'])`:
lexicographic string comparison of the canonical dates. -/
def checkLE (a b : CheckData) : Prop := strLE a.date b.date

instance : DecidableRel checkLE :=
  fun a b => inferInstanceAs (Decidable (strLE a.date b.date))

instance : IsTotal CheckData checkLE := ⟨fun a b => strLE_total a.date b.date⟩

instance : IsTrans CheckData checkLE := ⟨fun _ _ _ hab hbc => strLE_trans hab hbc⟩

/-- The normalized checks of a dish in encounter order (lines 162-201). -/
def Dish.normalizedChecks (d : Dish) : List CheckData :=
  d.quality_checks.filterMap normalizeCheck

/-- The normalized checks sorted by canonical date; Python's `list.sort`
is stable, which `List.insertionSort` models exactly (line 204). -/
def Dish.sortedChecks (d : Dish) : List CheckData :=
  List.insertionSort checkLE d.normalizedChecks

/-- All detailed rows produced for one dish: dishes whose raw
`quality_checks` mapping is empty are skipped (lines 155-159), otherwise
the sorted checks are folded into rows (lines 203-236). -/
def dishRows (d : Dish) : List Row :=
  if d.quality_checks.isEmpty then []
  else buildRowsAux d d.fishCount d.sortedChecks

/-- Embedding of `SurvivabilityExporter._process_survivability_data`:
rows of the dishes concatenated in load order. -/
def process_survivability_data (dishes : List Dish) : List Row :=
  dishes.flatMap dishRows

example :
    calculate_days_between "20240101" "20240103" = 2 := by decide

example :
    calculate_days_between "20240101" "20240110" = 9 := by decide

example :
    calculate_days_between "unknown" "20240110" = 0 := by decide

example :
    calculate_days_between "20240228" "20240301" = 2 := by decide

example :
    calculate_days_between "20230228" "20230301" = 1 := by decide

example :
    calculate_days_between "20231220" "20240105" = 16 := by decide

/-- One summary row / one value of the `summary` dict of
`_process_summary_data` (lines 357-367). -/
structure SummaryData where
  cross_id : String
  genotype : String
  date_fertilized : String
  dish_count : Int
  total_initial : Int
  total_surviving : Int
  survival_rate : ℚ
  max_days : Int
deriving DecidableEq

/-- The grouping key `f"{cross_id}_{genotype}_{dof}"` (line 355). -/
def groupKey (d : Dish) : String :=
  d.crossIdStr ++ "_" ++ d.genotypeStr ++ "_" ++ d.dofStr

/-- One iteration of the per-dish loop of lines 377-389: for a
structured check, subtract `num_dead` from the running `final_count`
and keep the lexicographically greater of the running `latest_date` and
this check's canonical date; any other check value is ignored. -/
def scanStep (acc : Int × String) (p : String × CheckEntry) : Int × String :=
  match p.2 with
  | CheckEntry.obj nd _ _ =>
      let check_date := canonicalDate p.1
      ( acc.1 - nd.getD 0
      , if strLT acc.2 check_date then check_date else acc.2)
  | _ => acc

/-- The per-dish loop of lines 374-389, started from `(fish_count, "")`. -/
def summaryScan (initial_count : Int) (qc : List (String × CheckEntry)) :
    Int × String :=
  qc.foldl scanStep (initial_count, "")

/-- The fresh group record created at lines 357-367. -/
def initGroup (d : Dish) : SummaryData :=
  { cross_id := d.crossIdStr
  , genotype := d.genotypeStr
  , date_fertilized := d.dofStr
  , dish_count := 0
  , total_initial := 0
  , total_surviving := 0
  , survival_rate := 0
  , max_days := 0 }

/-- The in-place mutation of one group record by one contributing dish
(lines 369-397): bump `dish_count`, add `fish_count` to `total_initial`,
add `max(0, final_count)` to `total_surviving`, and raise `max_days`
when a latest structured-check date was found. -/
def updateGroup (v : SummaryData) (d : Dish) : SummaryData :=
  let scan := summaryScan d.fishCount d.quality_checks
  { v with
      dish_count := v.dish_count + 1
    , total_initial := v.total_initial + d.fishCount
    , total_surviving := v.total_surviving + max 0 scan.1
    , max_days :=
        if scan.2 ≠ "" then max v.max_days (calculate_days_between d.dofStr scan.2)
        else v.max_days }

/-- Value stored under `key` in an association list (Python `dict`
lookup; keys are unique by construction). -/
def findVal (key : String) (l : List (String × SummaryData)) :
    Option SummaryData :=
  (l.find? (fun p => p.1 == key)).map (fun p => p.2)

/-- `summary[key] = f(summary[key])` on an association list (keys are
unique by construction, so rewriting every matching entry is the dict
update). -/
def updateAt : List (String × SummaryData) → String →
    (SummaryData → SummaryData) → List (String × SummaryData)
  | [], _, _ => []
  | p :: rest, key, f =>
      if p.1 = key then (p.1, f p.2) :: updateAt rest key f
      else p :: updateAt rest key f

/-- Processing of one dish by the grouping loop (lines 342-397): dishes
with an empty `quality_checks` mapping are skipped; otherwise the dish's
group is created on first sight (at the end, in dict insertion order)
and then updated. -/
def summaryStep (acc : List (String × SummaryData)) (d : Dish) :
    List (String × SummaryData) :=
  if d.quality_checks.isEmpty then acc
  else
    let key := groupKey d
    let acc1 := if (findVal key acc).isSome then acc
                else acc ++ [(key, initGroup d)]
    updateAt acc1 key (fun v => updateGroup v d)

/-- The whole grouping loop: the `summary` dict after all dishes, as an
association list in insertion order. -/
def summaryFold (dishes : List Dish) : List (String × SummaryData) :=
  dishes.foldl summaryStep []

/-- The final pass of lines 404-407: fill in `survival_rate` when
`total_initial > 0`. -/
def ratePass (v : SummaryData) : SummaryData :=
  if 0 < v.total_initial then
    { v with survival_rate :=
        (v.total_surviving : ℚ) / (v.total_initial : ℚ) * 100 }
  else v

/-- The Python tuple order on `(cross_id, genotype)` used by the sort at
line 410. -/
def crossGenoLE (a b : SummaryData) : Prop :=
  strLT a.cross_id b.cross_id ∨
    (a.cross_id = b.cross_id ∧ strLE a.genotype b.genotype)

instance : DecidableRel crossGenoLE :=
  fun _ _ => inferInstanceAs (Decidable (_ ∨ _))

instance : IsTotal SummaryData crossGenoLE := by
  constructor
  intro a b
  by_cases h1 : strLT a.cross_id b.cross_id
  · exact Or.inl (Or.inl h1)
  · by_cases h2 : strLT b.cross_id a.cross_id
    · exact Or.inr (Or.inl h2)
    · have he : a.cross_id = b.cross_id := strLT_antisymm h1 h2
      rcases strLE_total a.genotype b.genotype with hg | hg
      · exact Or.inl (Or.inr ⟨he, hg⟩)
      · exact Or.inr (Or.inr ⟨he.symm, hg⟩)

instance : IsTrans SummaryData crossGenoLE := by
  constructor
  intro a b c hab hbc
  rcases hab with h1 | ⟨h1, g1⟩
  · rcases hbc with h2 | ⟨h2, g2⟩
    · exact Or.inl (strLT_trans h1 h2)
    · exact Or.inl (h2 ▸ h1)
  · rcases hbc with h2 | ⟨h2, g2⟩
    · exact Or.inl (h1 ▸ h2)
    · exact Or.inr ⟨h1.trans h2, strLE_trans g1 g2⟩

/-- Embedding of `SurvivabilityExporter._process_summary_data`: group,
fill in rates, and sort (stably) by `(cross_id, genotype)`. -/
def process_summary_data (dishes : List Dish) : List SummaryData :=
  List.insertionSort crossGenoLE ((summaryFold dishes).map (fun p => ratePass p.2))

/-- A JSON value as `json.load` returns it; numbers are modelled as
integers (the fields the exporter reads are integers or booleans). -/
inductive PyJson where
  | obj (fields : List (String × PyJson))
  | arr (elems : List PyJson)
  | str (s : String)
  | num (n : Int)
  | bool (b : Bool)
  | null

/-- Python `d[key]` / `key in d` on a JSON object, as an option. -/
def getField (fields : List (String × PyJson)) (key : String) :
    Option PyJson :=
  (fields.find? (fun p => p.1 == key)).map (fun p => p.2)

/-- A JSON value that is a string. -/
def asStr : PyJson → Option String
  | PyJson.str s => some s
  | _ => none

/-- A JSON value that is an integer. -/
def asInt : PyJson → Option Int
  | PyJson.num n => some n
  | _ => none

/-- A JSON value that is a boolean. -/
def asBool : PyJson → Option Bool
  | PyJson.bool b => some b
  | _ => none

/-- Marshalling of one `quality_checks` value into the check-entry
variant the processors branch on (`isinstance(check, dict)` /
`isinstance(check, str)` / anything else). -/
def toCheckEntry : PyJson → CheckEntry
  | PyJson.str s => CheckEntry.str s
  | PyJson.obj fs =>
      CheckEntry.obj ((getField fs "num_dead").bind asInt)
        ((getField fs "water_changed").bind asBool)
        ((getField fs "vol_water_changed").bind asInt)
  | _ => CheckEntry.other

/-- Marshalling of a loaded JSON object into the typed dish view used by
the processors.  A field whose value has an unexpected JSON type is
treated as absent.  The raw-level processors below dispatch on the shape
of the `quality_checks` value BEFORE calling into this typed view, so
the paths a non-dict `quality_checks` takes in the source (skip when
falsy, AttributeError at `.items()` when truthy) are modelled there,
never collapsed here. -/
def toDish : PyJson → Dish
  | PyJson.obj fs =>
      { dish_id := (getField fs "dish_id").bind asStr
      , cross_id := (getField fs "cross_id").bind asStr
      , date_created := (getField fs "date_created").bind asStr
      , dof := (getField fs "dof").bind asStr
      , genotype := (getField fs "genotype").bind asStr
      , fish_count := (getField fs "fish_count").bind asInt
      , status := (getField fs "status").bind asStr
      , termination_date := (getField fs "termination_date").bind asStr
      , termination_reason := (getField fs "termination_reason").bind asStr
      , responsible := (getField fs "responsible").bind asStr
      , enclosure :=
          (getField fs "enclosure").bind (fun j =>
            match j with
            | PyJson.obj efs =>
                some { in_beaker := (getField efs "in_beaker").bind asBool
                     , room := (getField efs "room").bind asStr
                     , vol_water_total :=
                         (getField efs "vol_water_total").bind asInt }
            | _ => none)
      , quality_checks :=
          match getField fs "quality_checks" with
          | some (PyJson.obj qfs) =>
              qfs.map (fun p => (p.1, toCheckEntry p.2))
          | _ => [] }
  | _ => {}

/-- Python truthiness of a JSON value (the `if not quality_checks` test):
empty containers, the empty string, zero, `False` and `null` are falsy. -/
def pyTruthy : PyJson → Bool
  | PyJson.obj fields => !fields.isEmpty
  | PyJson.arr elems => !elems.isEmpty
  | PyJson.str s => !s.data.isEmpty
  | PyJson.num n => n != 0
  | PyJson.bool b => b
  | PyJson.null => false

/-- The raw value of `dish.get('quality_checks', {})` (the loader only
yields objects, so the catch-all branch is unreachable). -/
def qcValue : PyJson → PyJson
  | PyJson.obj fs => (getField fs "quality_checks").getD (PyJson.obj [])
  | _ => PyJson.obj []

/-- The per-dish detailed processing of lines 134-239 at the raw-JSON
level.  A dish whose `quality_checks` value is falsy is skipped at
lines 155-159; a truthy dict is processed through the typed pipeline; a
truthy NON-dict reaches `quality_checks.items()` at line 163, which
raises `AttributeError` before any row is built, and the per-dish
handler at line 238 skips the dish with no rows emitted. -/
def dishRowsRaw (j : PyJson) : List Row :=
  if pyTruthy (qcValue j) then
    match qcValue j with
    | PyJson.obj _ => dishRows (toDish j)
    | _ => []
  else []

/-- Embedding of `_process_survivability_data` over the loaded raw JSON
records. -/
def process_survivability_data_raw (dishes_data : List PyJson) : List Row :=
  dishes_data.flatMap dishRowsRaw

/-- The partial group mutation left behind by a dish whose truthy
`quality_checks` value is not a dict: the group is created if absent
(lines 357-367) and `dish_count`/`total_initial` are bumped (lines
370-371) before `.items()` raises at line 377; the per-dish handler at
line 399 keeps that state, and `total_surviving`/`max_days` are never
updated for this dish. -/
def partialGroupStep (acc : List (String × SummaryData)) (d : Dish) :
    List (String × SummaryData) :=
  let key := groupKey d
  let acc1 := if (findVal key acc).isSome then acc
              else acc ++ [(key, initGroup d)]
  updateAt acc1 key (fun v =>
    { v with dish_count := v.dish_count + 1
           , total_initial := v.total_initial + d.fishCount })

/-- The grouping loop of lines 342-400 at the raw-JSON level: a falsy
`quality_checks` is skipped at lines 349-352 before the group exists; a
truthy dict takes the full per-dish update; a truthy non-dict leaves
the partial mutation described at `partialGroupStep`. -/
def summaryStepRaw (acc : List (String × SummaryData)) (j : PyJson) :
    List (String × SummaryData) :=
  if pyTruthy (qcValue j) then
    match qcValue j with
    | PyJson.obj _ => summaryStep acc (toDish j)
    | _ => partialGroupStep acc (toDish j)
  else acc

/-- Embedding of `_process_summary_data` over the loaded raw JSON
records. -/
def process_summary_data_raw (dishes_data : List PyJson) : List SummaryData :=
  List.insertionSort crossGenoLE
    ((dishes_data.foldl summaryStepRaw []).map (fun p => ratePass p.2))

/-- One iteration of the loader's per-file loop (lines 101-114): a file
whose `json.load` raised is skipped, as is one whose value is not an
object or lacks a `dish_id` key; otherwise the parsed dish is appended. -/
def collectStep (acc : List PyJson) (e : String × Option PyJson) :
    List PyJson :=
  match e.2 with
  | none => acc
  | some dish_data =>
      match dish_data with
      | PyJson.obj fields =>
          if (getField fields "dish_id").isSome then
            acc ++ [PyJson.obj fields]
          else acc
      | _ => acc

/-- Embedding of `SurvivabilityExporter._collect_dishes_data`.  The
directory is `none` when listing it fails (inaccessible), otherwise a
list of `(filename, content)` entries where `none` content means
`json.load` raised; `glob("*.json")` keeps the `.json`-suffixed names.
A listing failure yields `[]`. -/
def collect_dishes_data
    (dish_dir : Option (List (String × Option PyJson))) : List PyJson :=
  match dish_dir with
  | none => []
  | some entries =>
      let json_files := entries.filter (fun e => ".json".data.isSuffixOf e.1.data)
      json_files.foldl collectStep []

/-- Embedding of `SurvivabilityExporter._write_csv_report`: the boolean
result plus the rows written at the output path (`none` when no file is
produced).  An empty row list is refused before the file is opened. -/
def write_csv_report {α : Type} (report_data : List α) :
    Bool × Option (List α) :=
  if report_data.isEmpty then (false, none) else (true, some report_data)

/-- Embedding of `SurvivabilityExporter.export_survivability_report`:
collect, bail out with `False` when nothing was loaded, process, write. -/
def export_survivability_report
    (dish_dir : Option (List (String × Option PyJson))) :
    Bool × Option (List Row) :=
  let dishes_data := collect_dishes_data dish_dir
  if dishes_data.isEmpty then (false, none)
  else write_csv_report (process_survivability_data_raw dishes_data)

/-- Embedding of `SurvivabilityExporter.export_survivability_summary`. -/
def export_survivability_summary
    (dish_dir : Option (List (String × Option PyJson))) :
    Bool × Option (List SummaryData) :=
  let dishes_data := collect_dishes_data dish_dir
  if dishes_data.isEmpty then (false, none)
  else write_csv_report (process_summary_data_raw dishes_data)

/-- Modelled from the spec: the claim of C5 speaks of "the
lexicographically-greatest canonical date string over all of that dish's
quality checks (legacy string checks included)"; this function computes
that quantity (the source's summary loop has no such computation — it
only looks at structured checks). -/
def claimLatestAllDates (d : Dish) : String :=
  d.quality_checks.foldl
    (fun latest p =>
      match p.2 with
      | CheckEntry.obj _ _ _ =>
          let cd := canonicalDate p.1
          if strLT latest cd then cd else latest
      | CheckEntry.str _ =>
          if strLT latest p.1 then p.1 else latest
      | CheckEntry.other => latest)
    ""

/-! ### The detailed report -/

/-- Total deaths reported by a dish's quality checks (legacy string
checks report 0, invalid check values are skipped). -/
def totalDeaths (d : Dish) : Int :=
  (d.normalizedChecks.map CheckData.num_dead).sum

lemma buildRowsAux_getLast (dish : Dish) (checks : List CheckData) :
    ∀ (remaining : Int) (r : Row),
      (buildRowsAux dish remaining checks).getLast? = some r →
      r.remaining = remaining - (checks.map CheckData.num_dead).sum := by
  induction checks with
  | nil => intro remaining r h; simp [buildRowsAux] at h
  | cons check rest ih =>
    intro remaining r h
    cases rest with
    | nil =>
      simp only [buildRowsAux, List.getLast?_singleton, Option.some.injEq] at h
      subst h
      simp [mkRow]
    | cons c2 r2 =>
      have h2 : (buildRowsAux dish (remaining - check.num_dead) (c2 :: r2)).getLast?
          = some r := by
        rw [show buildRowsAux dish remaining (check :: c2 :: r2)
              = mkRow dish check (remaining - check.num_dead)
                :: buildRowsAux dish (remaining - check.num_dead) (c2 :: r2)
            from rfl] at h
        rw [show buildRowsAux dish (remaining - check.num_dead) (c2 :: r2)
              = mkRow dish c2 (remaining - check.num_dead - c2.num_dead)
                :: buildRowsAux dish (remaining - check.num_dead - c2.num_dead) r2
            from rfl] at h ⊢
        simpa using h
      have := ih (remaining - check.num_dead) r h2
      simp only [List.map_cons, List.sum_cons] at this ⊢
      omega
  
lemma sortedChecks_deaths_sum (d : Dish) :
    (d.sortedChecks.map CheckData.num_dead).sum
      = (d.normalizedChecks.map CheckData.num_dead).sum :=
  ((List.perm_insertionSort checkLE d.normalizedChecks).map
    CheckData.num_dead).sum_eq

/-- C1: the last detailed row emitted for a dish has
`remaining = fish_count - total deaths`, with no clamping at zero. -/
theorem final_remaining_eq_initial_sub_deaths (d : Dish) (r : Row)
    (h : (dishRows d).getLast? = some r) :
    r.remaining = d.fishCount - totalDeaths d := by
  unfold dishRows at h
  by_cases hq : d.quality_checks.isEmpty
  · simp [hq] at h
  · rw [if_neg hq] at h
    have := buildRowsAux_getLast d d.sortedChecks d.fishCount r h
    rwa [sortedChecks_deaths_sum] at this

/-- A dish used to witness C1: 2 fish, checks reporting 5 deaths in
total, so the final row's `remaining` is the negative value `-3`. -/
def dishC1 : Dish :=
  { dish_id := some "D1", cross_id := some "X1", dof := some "20240101"
  , fish_count := some 2
  , quality_checks :=
      [ ("20240102", CheckEntry.obj (some 1) (some false) none)
      , ("20240103", CheckEntry.obj (some 4) none none) ] }

theorem final_remaining_eq_initial_sub_deaths_witness :
    ((dishRows dishC1).getLast?.map Row.remaining)
      = some (dishC1.fishCount - totalDeaths dishC1)
    ∧ dishC1.fishCount - totalDeaths dishC1 = -3 := by
  constructor
  · cases h : (dishRows dishC1).getLast? with
    | none => exact absurd h (by decide)
    | some r =>
        exact congrArg some (final_remaining_eq_initial_sub_deaths dishC1 r h)
  · decide

lemma mem_buildRowsAux (dish : Dish) (checks : List CheckData) :
    ∀ (remaining : Int) (r : Row), r ∈ buildRowsAux dish remaining checks →
      ∃ c rem, r = mkRow dish c rem := by
  induction checks with
  | nil => intro remaining r h; simp [buildRowsAux] at h
  | cons check rest ih =>
    intro remaining r h
    rw [show buildRowsAux dish remaining (check :: rest)
          = mkRow dish check (remaining - check.num_dead)
            :: buildRowsAux dish (remaining - check.num_dead) rest from rfl] at h
    rcases List.mem_cons.mp h with h1 | h2
    · exact ⟨check, remaining - check.num_dead, h1⟩
    · exact ih (remaining - check.num_dead) r h2

lemma mem_dishRows (d : Dish) (r : Row) (h : r ∈ dishRows d) :
    ∃ c rem, r = mkRow d c rem := by
  unfold dishRows at h
  by_cases hq : d.quality_checks.isEmpty
  · simp [hq] at h
  · rw [if_neg hq] at h
    exact mem_buildRowsAux d d.sortedChecks d.fishCount r h

/-- C2: every detailed row's `survival_rate` is
`remaining / fish_count * 100` when `fish_count > 0` and `0` when
`fish_count = 0`; the row construction is total, so no division-by-zero
error is reachable. -/
theorem row_survival_rate_formula (dishes : List Dish) (r : Row)
    (h : r ∈ process_survivability_data dishes) :
    (0 < r.initial_count →
        r.survival_rate = (r.remaining : ℚ) / (r.initial_count : ℚ) * 100)
    ∧ (r.initial_count = 0 → r.survival_rate = 0) := by
  obtain ⟨d, -, hr⟩ := List.mem_flatMap.mp h
  obtain ⟨c, rem, rfl⟩ := mem_dishRows d r hr
  constructor
  · intro hpos
    simp only [mkRow] at hpos ⊢
    rw [if_pos hpos]
  · intro hzero
    simp only [mkRow] at hzero ⊢
    rw [if_neg (by omega)]

/-- A dish list used to witness C2: one dish with positive `fish_count`
and one with `fish_count = 0`. -/
def dishesC2 : List Dish :=
  [ { dish_id := some "D2", fish_count := some 10
    , quality_checks := [("20240102", CheckEntry.obj (some 2) none none)] }
  , { dish_id := some "D2z", fish_count := some 0
    , quality_checks := [("20240102", CheckEntry.obj (some 1) none none)] } ]

/-- The row the first dish of `dishesC2` produces: 10 fish, 2 deaths. -/
def rowC2 : Row :=
  mkRow
    { dish_id := some "D2", fish_count := some 10
    , quality_checks := [("20240102", CheckEntry.obj (some 2) none none)] }
    { date := "20240102", num_dead := 2, water_changed := false
    , vol_water_changed := 0 }
    8

theorem row_survival_rate_formula_witness :
    (0 < rowC2.initial_count →
        rowC2.survival_rate = (rowC2.remaining : ℚ) / (rowC2.initial_count : ℚ) * 100)
    ∧ (rowC2.initial_count = 0 → rowC2.survival_rate = 0) :=
  row_survival_rate_formula dishesC2 rowC2 (List.Mem.head _)

/-- A dish with a named room used to exhibit the `room` cell's content. -/
def dishC6 : Dish :=
  { dish_id := some "D6", cross_id := some "X6", dof := some "20240101"
  , fish_count := some 5
  , enclosure := some { in_beaker := some true, room := some "main_room"
                      , vol_water_total := some 40 }
  , quality_checks := [("20240102", CheckEntry.obj (some 1) (some true) (some 10))] }

/-- C6: the `in_beaker` flag is rendered as the string "Yes"/"No", but
the `room` cell does NOT hold the dish's enclosure room string: because
of the trailing comma on line 152 of the source it holds the 1-tuple
`(room,)`. -/
theorem room_field_is_tuple :
    (process_survivability_data [dishC6]).map (fun r => (r.room, r.in_beaker))
      = [(PyVal.tup1 "main_room", "Yes")]
    ∧ (∀ r ∈ process_survivability_data [dishC6],
        r.room ≠ PyVal.str dishC6.roomStr)
    ∧ dishC6.roomStr = "main_room" := by
  refine ⟨by decide, by decide, by decide⟩

/-- Projection of a detailed row back onto the check data it was built
from (the `water_changed` "Yes"/"No" string decodes to the boolean). -/
def rowCheckData (r : Row) : CheckData :=
  { date := r.check_date
  , num_dead := r.fish_deaths
  , water_changed := r.water_changed == "Yes"
  , vol_water_changed := r.vol_water_changed }

lemma rowCheckData_mkRow (dish : Dish) (c : CheckData) (rem : Int) :
    rowCheckData (mkRow dish c rem) = c := by
  cases c with
  | mk date nd wc vol => cases wc <;> rfl

lemma map_rowCheckData_buildRowsAux (dish : Dish) (checks : List CheckData) :
    ∀ remaining : Int,
      (buildRowsAux dish remaining checks).map rowCheckData = checks := by
  induction checks with
  | nil => intro remaining; rfl
  | cons check rest ih =>
    intro remaining
    rw [show buildRowsAux dish remaining (check :: rest)
          = mkRow dish check (remaining - check.num_dead)
            :: buildRowsAux dish (remaining - check.num_dead) rest from rfl]
    rw [List.map_cons, rowCheckData_mkRow, ih]

lemma map_rowCheckData_dishRows (d : Dish) :
    (dishRows d).map rowCheckData = d.sortedChecks := by
  unfold dishRows
  by_cases hq : d.quality_checks.isEmpty
  · rw [if_pos hq]
    have : d.quality_checks = [] := List.isEmpty_iff.mp hq
    simp [Dish.sortedChecks, Dish.normalizedChecks, this]
  · rw [if_neg hq, map_rowCheckData_buildRowsAux]

lemma filter_insertionSort_checkLE (l : List CheckData) (s : String) :
    (List.insertionSort checkLE l).filter (fun c => c.date == s)
      = l.filter (fun c => c.date == s) := by
  set p : CheckData → Bool := fun c => c.date == s with hp
  have hmem : ∀ x ∈ l.filter p, x.date = s := by
    intro x hx
    have := List.of_mem_filter hx
    simpa [hp] using this
  have hpair : (l.filter p).Pairwise checkLE := by
    apply List.pairwise_of_forall_mem_list
    intro x hx y hy
    have hxd := hmem x hx
    have hyd := hmem y hy
    unfold checkLE
    rw [hxd, hyd]
    exact strLT_irrefl s
  have hsub : List.Sublist (l.filter p) (List.insertionSort checkLE l) :=
    List.sublist_insertionSort hpair (List.filter_sublist l)
  have hsub2 : List.Sublist (l.filter p)
      ((List.insertionSort checkLE l).filter p) := by
    have := hsub.filter p
    rwa [List.filter_filter, show (fun a => p a && p a) = p from by
      funext a; cases p a <;> rfl] at this
  have hperm : List.Perm ((List.insertionSort checkLE l).filter p)
      (l.filter p) :=
    (List.perm_insertionSort checkLE l).filter p
  exact (hsub2.eq_of_length hperm.length_eq.symm).symm

/-- C4: the detailed rows of a dish are emitted in ascending canonical
check-date order (Python string order), the tie-break is stable in
original encounter order (rows with any fixed date list exactly the
encounter-ordered normalized checks with that date), and the canonical
date is the key's first 8 characters for a structured check whose key
contains a colon and the key verbatim otherwise. -/
theorem rows_sorted_stably_by_date (d : Dish) :
    List.Pairwise (fun r1 r2 : Row => strLE r1.check_date r2.check_date)
      (dishRows d)
    ∧ (∀ s : String,
        ((dishRows d).map rowCheckData).filter (fun c => c.date == s)
          = d.normalizedChecks.filter (fun c => c.date == s))
    ∧ (∀ k nd wc vwc c,
        normalizeCheck (k, CheckEntry.obj nd wc vwc) = some c →
          c.date = (if k.data.contains ':' then k.take 8 else k))
    ∧ (∀ k t c, normalizeCheck (k, CheckEntry.str t) = some c → c.date = k) := by
  refine ⟨?_, ?_, ?_, ?_⟩
  · have hs : (d.sortedChecks).Pairwise checkLE :=
      List.sorted_insertionSort checkLE d.normalizedChecks
    rw [← map_rowCheckData_dishRows d] at hs
    exact (List.pairwise_map.mp hs).imp (fun h => h)
  · intro s
    rw [map_rowCheckData_dishRows d]
    exact filter_insertionSort_checkLE d.normalizedChecks s
  · intro k nd wc vwc c hc
    simp only [normalizeCheck, Option.some.injEq] at hc
    rw [← hc]
    rfl
  · intro k t c hc
    simp only [normalizeCheck, Option.some.injEq] at hc
    rw [← hc]

/-! ### The summary report -/

/-- Deaths one check value contributes in the summary loop (line 379-380):
`num_dead` (default 0) for a dict, nothing otherwise. -/
def checkDeaths : CheckEntry → Int
  | CheckEntry.obj nd _ _ => nd.getD 0
  | _ => 0

/-- Total deaths over a dish's structured checks. -/
def structuredDeaths (qc : List (String × CheckEntry)) : Int :=
  (qc.map (fun p => checkDeaths p.2)).sum

/-- `final_count` after the summary loop of lines 374-389. -/
def Dish.finalCount (d : Dish) : Int :=
  (summaryScan d.fishCount d.quality_checks).1

/-- `latest_date` after the summary loop of lines 374-389. -/
def Dish.latestDate (d : Dish) : String :=
  (summaryScan d.fishCount d.quality_checks).2

/-- The `max_days` update one dish applies to its group (lines 394-397). -/
def maxDaysStep (m : Int) (d : Dish) : Int :=
  if d.latestDate ≠ "" then
    max m (calculate_days_between d.dofStr d.latestDate)
  else m

lemma strLT_asymm {a b : String} (h : strLT a b) : ¬ strLT b a :=
  fun h2 => strLT_irrefl a (strLT_trans h h2)

lemma strLE_refl (a : String) : strLE a a := strLT_irrefl a

lemma scanStep_obj (acc : Int × String) (k : String)
    (nd : Option Int) (wc : Option Bool) (vwc : Option Int) :
    scanStep acc (k, CheckEntry.obj nd wc vwc)
      = ( acc.1 - nd.getD 0
        , if strLT acc.2 (canonicalDate k) then canonicalDate k else acc.2) :=
  rfl

lemma summaryScan_foldl_fst (qc : List (String × CheckEntry)) :
    ∀ (i : Int) (s : String),
      (qc.foldl scanStep (i, s)).1 = i - structuredDeaths qc := by
  induction qc with
  | nil => intro i s; simp [structuredDeaths]
  | cons p rest ih =>
    intro i s
    rw [List.foldl_cons]
    cases hp : p.2 with
    | obj nd wc vwc =>
      obtain ⟨k, e⟩ := p
      cases hp
      rw [scanStep_obj, ih]
      simp only [structuredDeaths, List.map_cons, List.sum_cons, checkDeaths]
      omega
    | str t =>
      obtain ⟨k, e⟩ := p
      cases hp
      rw [show scanStep (i, s) (k, CheckEntry.str t) = (i, s) from rfl, ih]
      simp only [structuredDeaths, List.map_cons, List.sum_cons, checkDeaths]
      omega
    | other =>
      obtain ⟨k, e⟩ := p
      cases hp
      rw [show scanStep (i, s) (k, CheckEntry.other) = (i, s) from rfl, ih]
      simp only [structuredDeaths, List.map_cons, List.sum_cons, checkDeaths]
      omega

/-- The summary loop's `final_count` is `fish_count` minus the structured
deaths. -/
lemma finalCount_eq (d : Dish) :
    d.finalCount = d.fishCount - structuredDeaths d.quality_checks :=
  summaryScan_foldl_fst d.quality_checks d.fishCount ""

lemma scan_snd_ge_init (qc : List (String × CheckEntry)) :
    ∀ (i : Int) (s : String), strLE s (qc.foldl scanStep (i, s)).2 := by
  induction qc with
  | nil => intro i s; exact strLE_refl s
  | cons p rest ih =>
    intro i s
    rw [List.foldl_cons]
    cases hp : p.2 with
    | obj nd wc vwc =>
      obtain ⟨k, e⟩ := p
      cases hp
      rw [scanStep_obj]
      by_cases hlt : strLT s (canonicalDate k)
      · rw [if_pos hlt]
        exact strLE_trans (strLT_asymm hlt) (ih _ _)
      · rw [if_neg hlt]
        exact ih _ _
    | str t =>
      obtain ⟨k, e⟩ := p
      cases hp
      exact ih _ _
    | other =>
      obtain ⟨k, e⟩ := p
      cases hp
      exact ih _ _

lemma scan_snd_ge_mem (qc : List (String × CheckEntry)) :
    ∀ (i : Int) (s : String) (p : String × CheckEntry), p ∈ qc →
      ∀ nd wc vwc, p.2 = CheckEntry.obj nd wc vwc →
        strLE (canonicalDate p.1) (qc.foldl scanStep (i, s)).2 := by
  induction qc with
  | nil => intro i s p hp; simp at hp
  | cons q rest ih =>
    intro i s p hp nd wc vwc he
    rcases List.mem_cons.mp hp with rfl | hmem
    · obtain ⟨k, e⟩ := p
      cases he
      rw [List.foldl_cons, scanStep_obj]
      refine strLE_trans ?_ (scan_snd_ge_init rest _ _)
      by_cases hlt : strLT s (canonicalDate k)
      · rw [if_pos hlt]; exact strLE_refl _
      · rw [if_neg hlt]; exact hlt
    · rw [List.foldl_cons]
      exact ih _ _ p hmem nd wc vwc he

/-- `latest_date` dominates the canonical date of every structured check
of the dish: it is the lexicographically greatest one (or `""`). -/
lemma latestDate_ge (d : Dish) (p : String × CheckEntry)
    (hp : p ∈ d.quality_checks) (nd : Option Int) (wc : Option Bool)
    (vwc : Option Int) (he : p.2 = CheckEntry.obj nd wc vwc) :
    strLE (canonicalDate p.1) d.latestDate :=
  scan_snd_ge_mem d.quality_checks d.fishCount "" p hp nd wc vwc he

/-- The keys of the `summary` dict. -/
def keysOf (l : List (String × SummaryData)) : List String :=
  l.map Prod.fst

lemma findVal_cons (k1 : String) (v1 : SummaryData)
    (rest : List (String × SummaryData)) (k : String) :
    findVal k ((k1, v1) :: rest)
      = if k1 = k then some v1 else findVal k rest := by
  by_cases h : k1 = k
  · have hb : (k1 == k) = true := by simpa using h
    simp [findVal, List.find?, hb, h]
  · have hb : (k1 == k) = false := by simpa using h
    simp [findVal, List.find?, hb, h]

lemma findVal_updateAt_self (l : List (String × SummaryData)) (k : String)
    (f : SummaryData → SummaryData) :
    findVal k (updateAt l k f) = (findVal k l).map f := by
  induction l with
  | nil => rfl
  | cons p rest ih =>
    obtain ⟨k1, v1⟩ := p
    by_cases h : k1 = k
    · rw [show updateAt ((k1, v1) :: rest) k f
            = (k1, f v1) :: updateAt rest k f from by simp [updateAt, h]]
      rw [findVal_cons, findVal_cons, if_pos h, if_pos h]
      rfl
    · rw [show updateAt ((k1, v1) :: rest) k f
            = (k1, v1) :: updateAt rest k f from by simp [updateAt, h]]
      rw [findVal_cons, findVal_cons, if_neg h, if_neg h, ih]

lemma findVal_updateAt_ne (l : List (String × SummaryData)) (k k2 : String)
    (f : SummaryData → SummaryData) (h : k ≠ k2) :
    findVal k (updateAt l k2 f) = findVal k l := by
  induction l with
  | nil => rfl
  | cons p rest ih =>
    obtain ⟨k1, v1⟩ := p
    by_cases hp : k1 = k2
    · have hk : k1 ≠ k := fun e => h (e.symm.trans hp)
      rw [show updateAt ((k1, v1) :: rest) k2 f
            = (k1, f v1) :: updateAt rest k2 f from by simp [updateAt, hp]]
      rw [findVal_cons, findVal_cons, if_neg hk, if_neg hk, ih]
    · rw [show updateAt ((k1, v1) :: rest) k2 f
            = (k1, v1) :: updateAt rest k2 f from by simp [updateAt, hp]]
      rw [findVal_cons, findVal_cons, ih]

lemma findVal_append_single (l : List (String × SummaryData)) (k k2 : String)
    (v : SummaryData) :
    findVal k (l ++ [(k2, v)])
      = (findVal k l).orElse (fun _ => if k2 = k then some v else none) := by
  induction l with
  | nil =>
    rw [List.nil_append, findVal_cons]
    by_cases h : k2 = k <;> simp [findVal, h]
  | cons p rest ih =>
    obtain ⟨k1, v1⟩ := p
    rw [List.cons_append, findVal_cons, findVal_cons]
    by_cases h : k1 = k
    · simp [h]
    · simp only [if_neg h, ih]

lemma keysOf_updateAt (l : List (String × SummaryData)) (k : String)
    (f : SummaryData → SummaryData) :
    keysOf (updateAt l k f) = keysOf l := by
  induction l with
  | nil => rfl
  | cons p rest ih =>
    obtain ⟨k1, v1⟩ := p
    by_cases h : k1 = k
    · rw [show updateAt ((k1, v1) :: rest) k f
            = (k1, f v1) :: updateAt rest k f from by simp [updateAt, h]]
      simp only [keysOf, List.map_cons] at ih ⊢
      rw [ih]
    · rw [show updateAt ((k1, v1) :: rest) k f
            = (k1, v1) :: updateAt rest k f from by simp [updateAt, h]]
      simp only [keysOf, List.map_cons] at ih ⊢
      rw [ih]

lemma findVal_eq_none_iff (l : List (String × SummaryData)) (k : String) :
    findVal k l = none ↔ k ∉ keysOf l := by
  induction l with
  | nil => simp [findVal, keysOf]
  | cons p rest ih =>
    obtain ⟨k1, v1⟩ := p
    rw [findVal_cons]
    by_cases h : k1 = k
    · simp [h, keysOf]
    · rw [if_neg h, ih]
      simp only [keysOf, List.map_cons, List.mem_cons, not_or]
      constructor
      · intro hn
        exact ⟨fun e => h e.symm, hn⟩
      · intro hn
        exact hn.2

/-- The dishes of `dishes` that contribute to group `k`: non-empty
`quality_checks` and matching group key, in load order. -/
def relevantDishes (k : String) (dishes : List Dish) : List Dish :=
  dishes.filter (fun d => !d.quality_checks.isEmpty && (groupKey d == k))

/-- The group record a list of contributing dishes yields: the first one
creates the record and every one (itself included) updates it. -/
def aggregateGroup : List Dish → Option SummaryData
  | [] => none
  | d :: rest => some (rest.foldl updateGroup (updateGroup (initGroup d) d))

lemma summaryStep_skip (acc : List (String × SummaryData)) (d : Dish)
    (h : d.quality_checks.isEmpty) : summaryStep acc d = acc := by
  unfold summaryStep
  rw [if_pos h]

lemma summaryStep_eq (acc : List (String × SummaryData)) (d : Dish)
    (h : ¬ d.quality_checks.isEmpty = true) :
    summaryStep acc d =
      updateAt
        (if (findVal (groupKey d) acc).isSome = true then acc
         else acc ++ [(groupKey d, initGroup d)])
        (groupKey d) (fun v => updateGroup v d) := by
  unfold summaryStep
  rw [if_neg h]

lemma findVal_summaryStep (acc : List (String × SummaryData)) (d : Dish)
    (k : String) :
    findVal k (summaryStep acc d) =
      if (!d.quality_checks.isEmpty && (groupKey d == k)) = true then
        match findVal k acc with
        | some v => some (updateGroup v d)
        | none => some (updateGroup (initGroup d) d)
      else findVal k acc := by
  by_cases hskip : d.quality_checks.isEmpty
  · rw [summaryStep_skip acc d hskip]
    have hc : (!d.quality_checks.isEmpty && (groupKey d == k)) = false := by
      rw [hskip]
      rfl
    rw [hc, if_neg Bool.false_ne_true]
  · have hskipf : d.quality_checks.isEmpty = false := by
      revert hskip
      cases d.quality_checks.isEmpty <;> simp
    rw [summaryStep_eq acc d hskip]
    by_cases hk : groupKey d = k
    · subst hk
      have hc : (!d.quality_checks.isEmpty && (groupKey d == groupKey d)) = true := by
        rw [hskipf]
        simp
      rw [hc, if_pos rfl]
      cases hv : findVal (groupKey d) acc with
      | some v =>
        rw [show (if (some v : Option SummaryData).isSome = true then acc
              else acc ++ [(groupKey d, initGroup d)]) = acc from if_pos rfl]
        rw [findVal_updateAt_self, hv]
        rfl
      | none =>
        rw [show (if (none : Option SummaryData).isSome = true then acc
              else acc ++ [(groupKey d, initGroup d)])
            = acc ++ [(groupKey d, initGroup d)] from if_neg (by simp)]
        rw [findVal_updateAt_self, findVal_append_single, hv, if_pos rfl]
        rfl
    · have hc : (!d.quality_checks.isEmpty && (groupKey d == k)) = false := by
        rw [show (groupKey d == k) = false from by simpa using hk]
        simp
      rw [hc, if_neg Bool.false_ne_true]
      have hne : k ≠ groupKey d := fun e => hk e.symm
      by_cases hv : (findVal (groupKey d) acc).isSome = true
      · rw [if_pos hv]
        exact findVal_updateAt_ne _ _ _ _ hne
      · rw [if_neg hv, findVal_updateAt_ne _ _ _ _ hne, findVal_append_single,
          if_neg hk]
        cases findVal k acc <;> rfl

lemma findVal_foldl_summaryStep (dishes : List Dish) :
    ∀ (acc : List (String × SummaryData)) (k : String),
      findVal k (dishes.foldl summaryStep acc) =
        match findVal k acc with
        | some v => some ((relevantDishes k dishes).foldl updateGroup v)
        | none => aggregateGroup (relevantDishes k dishes) := by
  induction dishes with
  | nil =>
    intro acc k
    rw [List.foldl_nil]
    cases h : findVal k acc with
    | none => simp [relevantDishes, aggregateGroup]
    | some v => simp [relevantDishes]
  | cons d rest ih =>
    intro acc k
    rw [List.foldl_cons, ih]
    rw [findVal_summaryStep]
    by_cases hd : (!d.quality_checks.isEmpty && (groupKey d == k)) = true
    · rw [if_pos hd]
      have hrel : relevantDishes k (d :: rest) = d :: relevantDishes k rest := by
        simp [relevantDishes, List.filter_cons, hd]
      rw [hrel]
      cases hv : findVal k acc with
      | some v => rfl
      | none => rfl
    · rw [if_neg hd]
      have hrel : relevantDishes k (d :: rest) = relevantDishes k rest := by
        simp [relevantDishes, List.filter_cons,
          show (!d.quality_checks.isEmpty && (groupKey d == k)) = false from by
            simpa using hd]
      rw [hrel]

lemma nodup_keys_summaryStep (acc : List (String × SummaryData)) (d : Dish)
    (h : (keysOf acc).Nodup) : (keysOf (summaryStep acc d)).Nodup := by
  by_cases hskip : d.quality_checks.isEmpty
  · rw [summaryStep_skip acc d hskip]; exact h
  · rw [summaryStep_eq acc d hskip]
    by_cases hv : (findVal (groupKey d) acc).isSome
    · rw [if_pos hv, keysOf_updateAt]
      exact h
    · rw [if_neg hv, keysOf_updateAt]
      have hnone : findVal (groupKey d) acc = none := by
        cases he : findVal (groupKey d) acc with
        | none => rfl
        | some v => rw [he] at hv; simp at hv
      have hout : groupKey d ∉ keysOf acc :=
        (findVal_eq_none_iff acc (groupKey d)).mp hnone
      rw [show keysOf (acc ++ [(groupKey d, initGroup d)])
            = keysOf acc ++ [groupKey d] from by simp [keysOf]]
      exact h.append (List.nodup_singleton _)
        (by simpa [List.disjoint_singleton] using hout)

lemma summaryFold_nodup_aux (dishes : List Dish) :
    ∀ acc : List (String × SummaryData), (keysOf acc).Nodup →
      (keysOf (dishes.foldl summaryStep acc)).Nodup := by
  induction dishes with
  | nil => intro acc h; exact h
  | cons d rest ih =>
    intro acc h
    rw [List.foldl_cons]
    exact ih _ (nodup_keys_summaryStep acc d h)

lemma summaryFold_nodup (dishes : List Dish) :
    (keysOf (summaryFold dishes)).Nodup :=
  summaryFold_nodup_aux dishes [] List.nodup_nil

lemma mem_findVal (l : List (String × SummaryData))
    (h : (keysOf l).Nodup) {k : String} {v : SummaryData}
    (hm : (k, v) ∈ l) : findVal k l = some v := by
  induction l with
  | nil => simp at hm
  | cons p rest ih =>
    obtain ⟨k1, v1⟩ := p
    rcases List.mem_cons.mp hm with he | hmem
    · injection he with h1 h2
      subst h1
      subst h2
      rw [findVal_cons, if_pos rfl]
    · have hks : k ∈ keysOf rest :=
        List.mem_map_of_mem Prod.fst hmem
      have hk1 : k1 ∉ keysOf rest := (List.nodup_cons.mp h).1
      have hne : k1 ≠ k := fun e => hk1 (e ▸ hks)
      rw [findVal_cons, if_neg hne]
      exact ih (List.nodup_cons.mp h).2 hmem

/-- Every entry of the final `summary` dict is exactly the aggregate of
the contributing dishes of its key, in load order. -/
lemma mem_summaryFold_agg (dishes : List Dish) {k : String} {v : SummaryData}
    (h : (k, v) ∈ summaryFold dishes) :
    aggregateGroup (relevantDishes k dishes) = some v := by
  have h1 := mem_findVal _ (summaryFold_nodup dishes) h
  have h2 := findVal_foldl_summaryStep dishes [] k
  rw [show findVal k ([] : List (String × SummaryData)) = none from rfl] at h2
  rw [show dishes.foldl summaryStep [] = summaryFold dishes from rfl, h1] at h2
  exact h2.symm

lemma foldl_updateGroup_spec (l : List Dish) :
    ∀ v : SummaryData,
      l.foldl updateGroup v =
        { cross_id := v.cross_id
        , genotype := v.genotype
        , date_fertilized := v.date_fertilized
        , dish_count := v.dish_count + (l.length : Int)
        , total_initial := v.total_initial + (l.map Dish.fishCount).sum
        , total_surviving :=
            v.total_surviving + (l.map (fun d => max 0 d.finalCount)).sum
        , survival_rate := v.survival_rate
        , max_days := l.foldl maxDaysStep v.max_days } := by
  induction l with
  | nil =>
    intro v
    cases v
    simp
  | cons d rest ih =>
    intro v
    rw [List.foldl_cons, ih]
    cases v with
    | mk cid g df dc ti ts sr md =>
      simp only [updateGroup, maxDaysStep, Dish.latestDate, Dish.finalCount,
        List.length_cons,
        List.map_cons, List.sum_cons, List.foldl_cons, SummaryData.mk.injEq]
      repeat' apply And.intro
      all_goals first
        | rfl
        | trivial
        | (push_cast; omega)

lemma ratePass_cross_id (v : SummaryData) :
    (ratePass v).cross_id = v.cross_id := by
  unfold ratePass
  by_cases h : 0 < v.total_initial
  · rw [if_pos h]
  · rw [if_neg h]

lemma ratePass_genotype (v : SummaryData) :
    (ratePass v).genotype = v.genotype := by
  unfold ratePass
  by_cases h : 0 < v.total_initial
  · rw [if_pos h]
  · rw [if_neg h]

lemma ratePass_date_fertilized (v : SummaryData) :
    (ratePass v).date_fertilized = v.date_fertilized := by
  unfold ratePass
  by_cases h : 0 < v.total_initial
  · rw [if_pos h]
  · rw [if_neg h]

lemma ratePass_dish_count (v : SummaryData) :
    (ratePass v).dish_count = v.dish_count := by
  unfold ratePass
  by_cases h : 0 < v.total_initial
  · rw [if_pos h]
  · rw [if_neg h]

lemma ratePass_total_initial (v : SummaryData) :
    (ratePass v).total_initial = v.total_initial := by
  unfold ratePass
  by_cases h : 0 < v.total_initial
  · rw [if_pos h]
  · rw [if_neg h]

lemma ratePass_total_surviving (v : SummaryData) :
    (ratePass v).total_surviving = v.total_surviving := by
  unfold ratePass
  by_cases h : 0 < v.total_initial
  · rw [if_pos h]
  · rw [if_neg h]

lemma ratePass_max_days (v : SummaryData) :
    (ratePass v).max_days = v.max_days := by
  unfold ratePass
  by_cases h : 0 < v.total_initial
  · rw [if_pos h]
  · rw [if_neg h]

lemma ratePass_rate_pos (v : SummaryData) (h : 0 < v.total_initial) :
    (ratePass v).survival_rate
      = (v.total_surviving : ℚ) / (v.total_initial : ℚ) * 100 := by
  unfold ratePass
  rw [if_pos h]

lemma ratePass_rate_nonpos (v : SummaryData) (h : ¬ 0 < v.total_initial) :
    (ratePass v).survival_rate = v.survival_rate := by
  unfold ratePass
  rw [if_neg h]

lemma mem_summary_rows (dishes : List Dish) (v : SummaryData)
    (h : v ∈ process_summary_data dishes) :
    ∃ k w, (k, w) ∈ summaryFold dishes ∧ v = ratePass w := by
  unfold process_summary_data at h
  rw [(List.perm_insertionSort crossGenoLE _).mem_iff] at h
  obtain ⟨p, hp, he⟩ := List.mem_map.mp h
  exact ⟨p.1, p.2, hp, he.symm⟩

/-- C7: a dish with an empty `quality_checks` map yields no detailed
rows and is dropped from both reports: removing it from the dish list
changes neither output. -/
theorem empty_checks_dish_contributes_nothing (pre post : List Dish)
    (d : Dish) (h : d.quality_checks = []) :
    dishRows d = []
    ∧ process_survivability_data (pre ++ d :: post)
        = process_survivability_data (pre ++ post)
    ∧ process_summary_data (pre ++ d :: post)
        = process_summary_data (pre ++ post) := by
  have hb : d.quality_checks.isEmpty = true := by simp [h]
  have hrows : dishRows d = [] := by
    unfold dishRows
    rw [if_pos hb]
  refine ⟨hrows, ?_, ?_⟩
  · unfold process_survivability_data
    simp [List.flatMap_append, hrows]
  · unfold process_summary_data
    have hfold : summaryFold (pre ++ d :: post) = summaryFold (pre ++ post) := by
      unfold summaryFold
      rw [List.foldl_append, List.foldl_append, List.foldl_cons]
      rw [summaryStep_skip _ d hb]
    rw [hfold]

/-- A dish with checks, used around the empty dish in the C7 witness. -/
def dishC7a : Dish :=
  { dish_id := some "D7a", cross_id := some "X7", dof := some "20240101"
  , fish_count := some 4
  , quality_checks := [("20240102", CheckEntry.obj (some 1) none none)] }

/-- A dish with an empty `quality_checks` map. -/
def dishC7e : Dish :=
  { dish_id := some "D7e", cross_id := some "X7", dof := some "20240101"
  , fish_count := some 6 }

theorem empty_checks_dish_contributes_nothing_witness :
    dishRows dishC7e = []
    ∧ process_survivability_data ([dishC7a] ++ dishC7e :: [])
        = process_survivability_data ([dishC7a] ++ [])
    ∧ process_summary_data ([dishC7a] ++ dishC7e :: [])
        = process_summary_data ([dishC7a] ++ []) :=
  empty_checks_dish_contributes_nothing [dishC7a] [] dishC7e rfl

lemma insertionSort_singleton (v : SummaryData) :
    List.insertionSort crossGenoLE [v] = [v] := rfl

/-- C3: two dishes sharing (cross_id, genotype, dof) collapse into one
summary row with `dish_count = 2`, summed `total_initial`, clamped and
summed `total_surviving`, and the quotient `survival_rate` when
`total_initial > 0`. -/
theorem summary_two_dishes (d1 d2 : Dish)
    (h1 : d1.quality_checks ≠ []) (h2 : d2.quality_checks ≠ [])
    (hc : d1.crossIdStr = d2.crossIdStr)
    (hg : d1.genotypeStr = d2.genotypeStr)
    (hd : d1.dofStr = d2.dofStr) :
    ∃ v, process_summary_data [d1, d2] = [v]
      ∧ v.dish_count = 2
      ∧ v.total_initial = d1.fishCount + d2.fishCount
      ∧ v.total_surviving
          = max 0 (d1.fishCount - structuredDeaths d1.quality_checks)
            + max 0 (d2.fishCount - structuredDeaths d2.quality_checks)
      ∧ (0 < v.total_initial →
          v.survival_rate
            = (v.total_surviving : ℚ) / (v.total_initial : ℚ) * 100) := by
  have he1 : ¬ d1.quality_checks.isEmpty = true := by
    simpa [List.isEmpty_iff] using h1
  have he2 : ¬ d2.quality_checks.isEmpty = true := by
    simpa [List.isEmpty_iff] using h2
  have hkey : groupKey d2 = groupKey d1 := by
    unfold groupKey
    rw [hc, hg, hd]
  have hs1 : summaryStep [] d1
      = [(groupKey d1, updateGroup (initGroup d1) d1)] := by
    rw [summaryStep_eq [] d1 he1]
    rw [show (if (findVal (groupKey d1)
            ([] : List (String × SummaryData))).isSome = true
          then ([] : List (String × SummaryData))
          else [] ++ [(groupKey d1, initGroup d1)])
        = [(groupKey d1, initGroup d1)] from if_neg (by simp [findVal])]
    unfold updateAt
    rw [if_pos rfl]
    rfl
  have hs2 : summaryStep [(groupKey d1, updateGroup (initGroup d1) d1)] d2
      = [(groupKey d1, updateGroup (updateGroup (initGroup d1) d1) d2)] := by
    rw [summaryStep_eq _ d2 he2, hkey]
    rw [show (if (findVal (groupKey d1)
            [(groupKey d1, updateGroup (initGroup d1) d1)]).isSome = true
          then [(groupKey d1, updateGroup (initGroup d1) d1)]
          else [(groupKey d1, updateGroup (initGroup d1) d1)]
            ++ [(groupKey d1, initGroup d2)])
        = [(groupKey d1, updateGroup (initGroup d1) d1)] from
        if_pos (by rw [findVal_cons, if_pos rfl]; rfl)]
    unfold updateAt
    rw [if_pos rfl]
    rfl
  have hfold : summaryFold [d1, d2]
      = [(groupKey d1, updateGroup (updateGroup (initGroup d1) d1) d2)] := by
    unfold summaryFold
    rw [List.foldl_cons, List.foldl_cons, List.foldl_nil, hs1, hs2]
  have hspec := foldl_updateGroup_spec [d1, d2] (initGroup d1)
  have hagg : updateGroup (updateGroup (initGroup d1) d1) d2
      = [d1, d2].foldl updateGroup (initGroup d1) := rfl
  refine ⟨ratePass (updateGroup (updateGroup (initGroup d1) d1) d2), ?_, ?_, ?_, ?_, ?_⟩
  · unfold process_summary_data
    rw [hfold]
    rw [show ([(groupKey d1, updateGroup (updateGroup (initGroup d1) d1) d2)].map
          (fun p => ratePass p.2))
        = [ratePass (updateGroup (updateGroup (initGroup d1) d1) d2)] from rfl]
    exact insertionSort_singleton _
  · rw [ratePass_dish_count, hagg, hspec]
    simp [initGroup]
  · rw [ratePass_total_initial, hagg, hspec]
    simp [initGroup]
  · rw [ratePass_total_surviving, hagg, hspec]
    simp [initGroup, finalCount_eq]
  · intro hpos
    rw [ratePass_total_initial] at hpos
    rw [ratePass_rate_pos _ hpos, ratePass_total_surviving,
      ratePass_total_initial]

/-- First dish of the spec's summary example: 10 fish, 2 deaths. -/
def dishC3a : Dish :=
  { dish_id := some "X3_1", cross_id := some "X3", genotype := some "wt"
  , dof := some "20240101", fish_count := some 10
  , quality_checks := [("20240102", CheckEntry.obj (some 2) none none)] }

/-- Second dish of the spec's summary example: 20 fish, 4 deaths. -/
def dishC3b : Dish :=
  { dish_id := some "X3_2", cross_id := some "X3", genotype := some "wt"
  , dof := some "20240101", fish_count := some 20
  , quality_checks :=
      [ ("20240102", CheckEntry.obj (some 3) none none)
      , ("20240103", CheckEntry.obj (some 1) none none) ] }

theorem summary_two_dishes_witness :
    (∃ v, process_summary_data [dishC3a, dishC3b] = [v]
      ∧ v.dish_count = 2
      ∧ v.total_initial = dishC3a.fishCount + dishC3b.fishCount
      ∧ v.total_surviving
          = max 0 (dishC3a.fishCount - structuredDeaths dishC3a.quality_checks)
            + max 0 (dishC3b.fishCount - structuredDeaths dishC3b.quality_checks)
      ∧ (0 < v.total_initial →
          v.survival_rate
            = (v.total_surviving : ℚ) / (v.total_initial : ℚ) * 100))
    ∧ ((process_summary_data [dishC3a, dishC3b]).map
        (fun v => (v.total_initial, v.total_surviving)) = [(30, 24)]
      ∧ ∀ v ∈ process_summary_data [dishC3a, dishC3b], v.survival_rate = 80) := by
  have h := summary_two_dishes dishC3a dishC3b (by decide) (by decide) rfl rfl rfl
  obtain ⟨v, hv, hdc, hti, hts, hr⟩ := h
  have h1 : v.total_initial = 30 := by rw [hti]; decide
  have h2 : v.total_surviving = 24 := by rw [hts]; decide
  refine ⟨⟨v, hv, hdc, hti, hts, hr⟩, ?_, ?_⟩
  · rw [hv]
    simp [h1, h2]
  · intro w hw
    rw [hv, List.mem_singleton] at hw
    subst hw
    have hrate := hr (by rw [h1]; norm_num)
    rw [hrate, h1, h2]
    norm_num

/-- A dish over-reporting deaths: 1 fish, 3 reported dead. -/
def dishC10 : Dish :=
  { dish_id := some "D10", cross_id := some "X10", dof := some "20240101"
  , fish_count := some 1
  , quality_checks := [("20240102", CheckEntry.obj (some 3) none none)] }

/-- The detailed row `dishC10` produces: `remaining = -2`. -/
def rowC10 : Row :=
  mkRow dishC10
    { date := "20240102", num_dead := 3, water_changed := false
    , vol_water_changed := 0 }
    (-2)

/-- C10: under non-negative `fish_count` and `num_dead`, every summary
row keeps `0 ≤ total_surviving ≤ total_initial` and
`0 ≤ survival_rate ≤ 100` (the per-dish clamp `max(0, ·)` guarantees
it), while a detailed row's `remaining` and `survival_rate` can still
go negative under the same hypotheses. -/
theorem summary_rows_bounded (dishes : List Dish)
    (hN : ∀ d ∈ dishes, 0 ≤ d.fishCount)
    (hD : ∀ d ∈ dishes, ∀ p ∈ d.quality_checks, 0 ≤ checkDeaths p.2) :
    (∀ v ∈ process_summary_data dishes,
        0 ≤ v.total_surviving ∧ v.total_surviving ≤ v.total_initial
        ∧ 0 ≤ v.survival_rate ∧ v.survival_rate ≤ 100)
    ∧ ((∀ d ∈ [dishC10], 0 ≤ d.fishCount)
        ∧ (∀ d ∈ [dishC10], ∀ p ∈ d.quality_checks, 0 ≤ checkDeaths p.2)
        ∧ rowC10 ∈ process_survivability_data [dishC10]
        ∧ rowC10.remaining < 0 ∧ rowC10.survival_rate < 0) := by
  constructor
  · intro v hv
    obtain ⟨k, w, hw, hveq⟩ := mem_summary_rows dishes v hv
    subst hveq
    have hagg := mem_summaryFold_agg dishes hw
    cases hrel : relevantDishes k dishes with
    | nil =>
      rw [hrel] at hagg
      exact absurd hagg (by simp [aggregateGroup])
    | cons d0 rest =>
      rw [hrel] at hagg
      have hw2 : w = (d0 :: rest).foldl updateGroup (initGroup d0) := by
        rw [show aggregateGroup (d0 :: rest)
              = some (rest.foldl updateGroup (updateGroup (initGroup d0) d0))
            from rfl] at hagg
        exact (Option.some.inj hagg).symm
      have hsub : ∀ d ∈ d0 :: rest, d ∈ dishes := by
        intro d hd
        have hmem : d ∈ relevantDishes k dishes := hrel ▸ hd
        exact (List.mem_filter.mp hmem).1
      have hNl : ∀ d ∈ d0 :: rest, 0 ≤ d.fishCount :=
        fun d hd => hN d (hsub d hd)
      have hDl : ∀ d ∈ d0 :: rest, 0 ≤ structuredDeaths d.quality_checks := by
        intro d hd
        unfold structuredDeaths
        apply List.sum_nonneg
        intro x hx
        obtain ⟨p, hp, rfl⟩ := List.mem_map.mp hx
        exact hD d (hsub d hd) p hp
      rw [foldl_updateGroup_spec] at hw2
      have hts : w.total_surviving
          = ((d0 :: rest).map (fun d => max 0 d.finalCount)).sum := by
        rw [hw2]
        simp [initGroup]
      have hti : w.total_initial = ((d0 :: rest).map Dish.fishCount).sum := by
        rw [hw2]
        simp [initGroup]
      have hsr : w.survival_rate = 0 := by
        rw [hw2]
        simp [initGroup]
      have hts0 : 0 ≤ w.total_surviving := by
        rw [hts]
        apply List.sum_nonneg
        intro x hx
        obtain ⟨d, hd, rfl⟩ := List.mem_map.mp hx
        exact le_max_left 0 _
      have htsle : w.total_surviving ≤ w.total_initial := by
        rw [hts, hti]
        apply List.sum_le_sum
        intro d hd
        rw [finalCount_eq]
        exact max_le (hNl d hd) (by have := hDl d hd; omega)
      refine ⟨?_, ?_, ?_, ?_⟩
      · rw [ratePass_total_surviving]
        exact hts0
      · rw [ratePass_total_surviving, ratePass_total_initial]
        exact htsle
      · by_cases hp : 0 < w.total_initial
        · rw [ratePass_rate_pos _ hp]
          have hc0 : (0:ℚ) ≤ (w.total_surviving : ℚ) := by exact_mod_cast hts0
          have hq : (0:ℚ) < (w.total_initial : ℚ) := by exact_mod_cast hp
          exact mul_nonneg (div_nonneg hc0 hq.le) (by norm_num)
        · rw [ratePass_rate_nonpos _ hp, hsr]
      · by_cases hp : 0 < w.total_initial
        · rw [ratePass_rate_pos _ hp]
          have hcast : (w.total_surviving : ℚ) ≤ (w.total_initial : ℚ) := by
            exact_mod_cast htsle
          have hq : (0:ℚ) < (w.total_initial : ℚ) := by exact_mod_cast hp
          have hdiv : (w.total_surviving : ℚ) / (w.total_initial : ℚ) ≤ 1 :=
            (div_le_one hq).mpr hcast
          calc (w.total_surviving : ℚ) / (w.total_initial : ℚ) * 100
              ≤ 1 * 100 := mul_le_mul_of_nonneg_right hdiv (by norm_num)
            _ = 100 := one_mul 100
        · rw [ratePass_rate_nonpos _ hp, hsr]
          norm_num
  · refine ⟨by decide, by decide, List.Mem.head _, by decide, ?_⟩
    show (if 0 < dishC10.fishCount
        then ((-2 : Int) : ℚ) / (dishC10.fishCount : ℚ) * 100 else 0) < 0
    rw [if_pos (by decide)]
    rw [show dishC10.fishCount = 1 from rfl]
    norm_num

theorem summary_rows_bounded_witness :
    (∀ v ∈ process_summary_data [dishC10],
        0 ≤ v.total_surviving ∧ v.total_surviving ≤ v.total_initial
        ∧ 0 ≤ v.survival_rate ∧ v.survival_rate ≤ 100)
    ∧ ((∀ d ∈ [dishC10], 0 ≤ d.fishCount)
        ∧ (∀ d ∈ [dishC10], ∀ p ∈ d.quality_checks, 0 ≤ checkDeaths p.2)
        ∧ rowC10 ∈ process_survivability_data [dishC10]
        ∧ rowC10.remaining < 0 ∧ rowC10.survival_rate < 0) :=
  summary_rows_bounded [dishC10] (by decide) (by decide)

/-- A dish whose lexicographically greatest canonical check date comes
from a legacy string check ("20240110"), while its greatest structured
check date is "20240105"; `dof` is "20240101". -/
def dishC5 : Dish :=
  { dish_id := some "D5", cross_id := some "X5", genotype := some "wt"
  , dof := some "20240101", fish_count := some 5
  , quality_checks :=
      [ ("20240110", CheckEntry.str "looks healthy")
      , ("20240105", CheckEntry.obj (some 1) none none) ] }

/-- Counterexample to C5 as stated: the summary loop only tracks dates
of structured (dict) checks, so the group's `max_days` is 4 (from
"20240105"), strictly below the 9 days that the lexicographically
greatest canonical date over ALL checks (legacy "20240110" included)
would give. -/
theorem group_max_days_ignores_legacy_counterexample :
    (process_summary_data [dishC5]).map SummaryData.max_days = [4]
    ∧ claimLatestAllDates dishC5 = "20240110"
    ∧ calculate_days_between dishC5.dofStr (claimLatestAllDates dishC5) = 9
    ∧ ∃ v ∈ process_summary_data [dishC5],
        v.max_days
          < calculate_days_between dishC5.dofStr (claimLatestAllDates dishC5) := by
  refine ⟨by decide, by decide, by decide, by decide⟩

/-- The group key a summary row stands for, rebuilt from the fields the
first contributing dish stamped on it. -/
def rowKey (v : SummaryData) : String :=
  v.cross_id ++ "_" ++ v.genotype ++ "_" ++ v.date_fertilized

lemma maxDaysStep_mono {m n : Int} (d : Dish) (h : m ≤ n) :
    maxDaysStep m d ≤ maxDaysStep n d := by
  unfold maxDaysStep
  by_cases hl : d.latestDate ≠ ""
  · rw [if_pos hl, if_pos hl]
    exact max_le_max h le_rfl
  · rw [if_neg hl, if_neg hl]
    exact h

lemma le_maxDaysStep (m : Int) (d : Dish) : m ≤ maxDaysStep m d := by
  unfold maxDaysStep
  by_cases hl : d.latestDate ≠ ""
  · rw [if_pos hl]
    exact le_max_left _ _
  · rw [if_neg hl]

lemma le_foldl_maxDaysStep (l : List Dish) :
    ∀ m : Int, m ≤ l.foldl maxDaysStep m := by
  induction l with
  | nil => intro m; exact le_rfl
  | cons d rest ih =>
    intro m
    rw [List.foldl_cons]
    exact le_trans (le_maxDaysStep m d) (ih _)

lemma mem_le_foldl_maxDaysStep (l : List Dish) :
    ∀ (m : Int) (d : Dish), d ∈ l → d.latestDate ≠ "" →
      calculate_days_between d.dofStr d.latestDate ≤ l.foldl maxDaysStep m := by
  induction l with
  | nil => intro m d hd; simp at hd
  | cons q rest ih =>
    intro m d hd hne
    rw [List.foldl_cons]
    rcases List.mem_cons.mp hd with rfl | hmem
    · refine le_trans ?_ (le_foldl_maxDaysStep rest _)
      unfold maxDaysStep
      rw [if_pos hne]
      exact le_max_right _ _
    · exact ih _ d hmem hne

/-- C5 (amended): the summary's `max_days` is computed from structured
(dict) checks only — legacy string checks are ignored.  For each group
row, `max_days` is the fold of `max` starting at 0 of
`days(dof, latest)` over its contributing dishes, where `latest` is the
dish's lexicographically greatest structured-check canonical date
(dishes with no structured check, whose `latest` stays `""`, contribute
nothing); in particular `max_days` is at least each contributing dish's
days value. -/
theorem group_max_days_from_structured_checks (dishes : List Dish)
    (v : SummaryData) (hv : v ∈ process_summary_data dishes) :
    v.max_days = (relevantDishes (rowKey v) dishes).foldl maxDaysStep 0
    ∧ (∀ d ∈ relevantDishes (rowKey v) dishes, d.latestDate ≠ "" →
        calculate_days_between d.dofStr d.latestDate ≤ v.max_days)
    ∧ (∀ d ∈ relevantDishes (rowKey v) dishes, ∀ p ∈ d.quality_checks,
        ∀ nd wc vwc, p.2 = CheckEntry.obj nd wc vwc →
          strLE (canonicalDate p.1) d.latestDate) := by
  obtain ⟨k, w, hw, hveq⟩ := mem_summary_rows dishes v hv
  subst hveq
  have hagg := mem_summaryFold_agg dishes hw
  cases hrel : relevantDishes k dishes with
  | nil =>
    rw [hrel] at hagg
    exact absurd hagg (by simp [aggregateGroup])
  | cons d0 rest =>
    rw [hrel] at hagg
    have hw2 : w = (d0 :: rest).foldl updateGroup (initGroup d0) := by
      rw [show aggregateGroup (d0 :: rest)
            = some (rest.foldl updateGroup (updateGroup (initGroup d0) d0))
          from rfl] at hagg
      exact (Option.some.inj hagg).symm
    rw [foldl_updateGroup_spec] at hw2
    have hmem0 : d0 ∈ relevantDishes k dishes := by
      rw [hrel]
      exact List.mem_cons_self _ _
    have hd0k : groupKey d0 = k := by
      have hf := (List.mem_filter.mp hmem0).2
      have hf2 : (groupKey d0 == k) = true := by
        cases hb : (groupKey d0 == k)
        · rw [hb, Bool.and_false] at hf
          exact absurd hf Bool.false_ne_true
        · rfl
      exact beq_iff_eq.mp hf2
    have hcw : w.cross_id = d0.crossIdStr := by
      rw [hw2]
      simp [initGroup]
    have hgw : w.genotype = d0.genotypeStr := by
      rw [hw2]
      simp [initGroup]
    have hdw : w.date_fertilized = d0.dofStr := by
      rw [hw2]
      simp [initGroup]
    have hk : rowKey (ratePass w) = k := by
      unfold rowKey
      rw [ratePass_cross_id, ratePass_genotype, ratePass_date_fertilized,
        hcw, hgw, hdw]
      exact hd0k
    have hmd : (ratePass w).max_days = (d0 :: rest).foldl maxDaysStep 0 := by
      rw [ratePass_max_days, hw2]
      simp [initGroup]
    rw [hk, hrel]
    refine ⟨hmd, ?_, ?_⟩
    · intro d hd hne
      rw [hmd]
      exact mem_le_foldl_maxDaysStep (d0 :: rest) 0 d hd hne
    · intro d hd p hp nd wc vwc he
      exact latestDate_ge d p hp nd wc vwc he

/-- The single summary row produced by `[dishC5]`. -/
def rowC5 : SummaryData :=
  ratePass (updateGroup (initGroup dishC5) dishC5)

theorem group_max_days_from_structured_checks_witness :
    rowC5.max_days = (relevantDishes (rowKey rowC5) [dishC5]).foldl maxDaysStep 0
    ∧ (∀ d ∈ relevantDishes (rowKey rowC5) [dishC5], d.latestDate ≠ "" →
        calculate_days_between d.dofStr d.latestDate ≤ rowC5.max_days)
    ∧ (∀ d ∈ relevantDishes (rowKey rowC5) [dishC5], ∀ p ∈ d.quality_checks,
        ∀ nd wc vwc, p.2 = CheckEntry.obj nd wc vwc →
          strLE (canonicalDate p.1) d.latestDate) :=
  group_max_days_from_structured_checks [dishC5] rowC5 (List.Mem.head _)

/-! ### The loader and the public export operations -/

/-- The file contents the loader keeps: JSON objects carrying a
`dish_id` key. -/
def validDishFile (content : Option PyJson) : Option PyJson :=
  match content with
  | some (PyJson.obj fields) =>
      if (getField fields "dish_id").isSome then some (PyJson.obj fields)
      else none
  | _ => none

lemma foldl_collectStep (files : List (String × Option PyJson)) :
    ∀ acc : List PyJson,
      files.foldl collectStep acc
        = acc ++ files.filterMap (fun e => validDishFile e.2) := by
  induction files with
  | nil => intro acc; simp
  | cons e rest ih =>
    intro acc
    rw [List.foldl_cons, ih]
    obtain ⟨name, content⟩ := e
    cases content with
    | none => simp [collectStep, validDishFile]
    | some j =>
      cases j with
      | obj fields =>
        by_cases hid : (getField fields "dish_id").isSome
        · rw [show collectStep acc (name, some (PyJson.obj fields))
                = acc ++ [PyJson.obj fields] from by
              simp [collectStep, hid]]
          rw [show List.filterMap (fun e => validDishFile e.2)
                ((name, some (PyJson.obj fields)) :: rest)
              = PyJson.obj fields
                  :: rest.filterMap (fun e => validDishFile e.2) from by
              simp [List.filterMap_cons, validDishFile, hid]]
          rw [List.append_assoc]
          rfl
        · rw [show collectStep acc (name, some (PyJson.obj fields)) = acc from by
              simp [collectStep, hid]]
          rw [show List.filterMap (fun e => validDishFile e.2)
                ((name, some (PyJson.obj fields)) :: rest)
              = rest.filterMap (fun e => validDishFile e.2) from by
              simp [List.filterMap_cons, validDishFile, hid]]
      | arr l => simp [collectStep, validDishFile]
      | str s => simp [collectStep, validDishFile]
      | num n => simp [collectStep, validDishFile]
      | bool b => simp [collectStep, validDishFile]
      | null => simp [collectStep, validDishFile]

/-- A parsed dish file: an object with a `dish_id` key. -/
def goodDishJson : PyJson :=
  PyJson.obj [("dish_id", PyJson.str "D8"), ("fish_count", PyJson.num 3)]

/-- C8: the loader returns exactly the `*.json` files that parse as JSON
objects containing a `dish_id` key, in directory order; a directory with
one invalid-JSON file and one valid dish file yields exactly the valid
dish, and an inaccessible or nonexistent directory yields `[]` rather
than an error. -/
theorem loader_keeps_exactly_valid_dishes :
    (∀ entries : List (String × Option PyJson),
        collect_dishes_data (some entries)
          = (entries.filter (fun e => ".json".data.isSuffixOf e.1.data)).filterMap
              (fun e => validDishFile e.2))
    ∧ collect_dishes_data none = []
    ∧ collect_dishes_data
        (some [("bad.json", none), ("good.json", some goodDishJson)])
        = [goodDishJson] := by
  refine ⟨?_, rfl, by rfl⟩
  intro entries
  rw [show collect_dishes_data (some entries)
      = (entries.filter
          (fun e => ".json".data.isSuffixOf e.1.data)).foldl collectStep []
    from rfl]
  rw [foldl_collectStep]
  rfl

lemma foldl_summaryStepRaw_all_skip (l : List PyJson) :
    ∀ acc : List (String × SummaryData),
      (∀ j ∈ l, pyTruthy (qcValue j) = false) →
        l.foldl summaryStepRaw acc = acc := by
  induction l with
  | nil => intro acc _; rfl
  | cons j rest ih =>
    intro acc h
    rw [List.foldl_cons]
    rw [show summaryStepRaw acc j = acc from by
      unfold summaryStepRaw
      rw [h j (List.mem_cons_self j rest), if_neg Bool.false_ne_true]]
    exact ih acc (fun q hq => h q (List.mem_cons_of_mem j hq))

/-- C9: both public export operations return a boolean (the embedding is
total: every exception path of the source is caught and folded into the
result), and when there is no data to export — the directory is empty
or inaccessible, no file is a valid dish, or every loaded dish lacks
quality checks (its raw `quality_checks` value is absent or falsy, i.e.
an empty mapping in the spec's data model) — they return `False` and
create no CSV file. -/
theorem exports_fail_closed_on_no_data
    (dish_dir : Option (List (String × Option PyJson)))
    (h : ∀ j ∈ collect_dishes_data dish_dir, pyTruthy (qcValue j) = false) :
    export_survivability_report dish_dir = (false, none)
    ∧ export_survivability_summary dish_dir = (false, none) := by
  unfold export_survivability_report export_survivability_summary
  by_cases hempty : (collect_dishes_data dish_dir).isEmpty
  · rw [if_pos hempty, if_pos hempty]
    exact ⟨rfl, rfl⟩
  · rw [if_neg hempty, if_neg hempty]
    have hrows :
        process_survivability_data_raw (collect_dishes_data dish_dir)
          = [] := by
      unfold process_survivability_data_raw
      rw [List.flatMap_eq_nil_iff]
      intro j hj
      unfold dishRowsRaw
      rw [h j hj, if_neg Bool.false_ne_true]
    have hsummary :
        process_summary_data_raw (collect_dishes_data dish_dir) = [] := by
      unfold process_summary_data_raw
      rw [foldl_summaryStepRaw_all_skip _ [] h]
      rfl
    rw [hrows, hsummary]
    exact ⟨rfl, rfl⟩

/-- A directory whose only dish file has an empty `quality_checks`
object. -/
def dirC9 : Option (List (String × Option PyJson)) :=
  some
    [ ("corrupt.json", none)
    , ("d.json", some (PyJson.obj
        [("dish_id", PyJson.str "D9"), ("quality_checks", PyJson.obj [])])) ]

theorem exports_fail_closed_on_no_data_witness :
    export_survivability_report dirC9 = (false, none)
    ∧ export_survivability_summary dirC9 = (false, none) :=
  exports_fail_closed_on_no_data dirC9 (by decide)

/-- A directory with one dish whose `quality_checks` is the truthy
non-dict JSON array `[1]`. -/
def dirC9b : Option (List (String × Option PyJson)) :=
  some
    [ ("d.json", some (PyJson.obj
        [ ("dish_id", PyJson.str "D9b"), ("cross_id", PyJson.str "X9")
        , ("dof", PyJson.str "20240101"), ("fish_count", PyJson.num 5)
        , ("quality_checks", PyJson.arr [PyJson.num 1]) ])) ]

/-- On a dish whose truthy `quality_checks` is not a dict, the model
reproduces the source's asymmetry: the detailed export emits no rows
(the dish dies at `.items()` before any row) and fails, while the
summary export keeps the partial group — `dish_count = 1`,
`total_initial = 5`, `total_surviving = 0` — writes it out and reports
success. -/
lemma summary_keeps_partial_group_on_truthy_nondict_checks :
    export_survivability_report dirC9b = (false, none)
    ∧ (export_survivability_summary dirC9b).1 = true
    ∧ ((export_survivability_summary dirC9b).2.map (List.map
        (fun v => (v.dish_count, v.total_initial, v.total_surviving, v.max_days))))
      = some [(1, 5, 0, 0)] := by
  refine ⟨by decide, by decide, by decide⟩
